import Mathlib

/-!
Verification development for the Louvre collection MCP server
(`src/build/index.js`).  The definitions below are a shallow embedding of
the artwork resolution and image-selection pipeline: JS strings are Lean
`String`s (manipulated through their character lists so that everything
evaluates), JS `undefined`-able values are `Option`s, and JS truthiness
on strings ("" and `undefined` are falsy) is made explicit.
-/

namespace LouvreMCP

/-! ### JS string and truthiness helpers -/

/-- Truthiness of a JS string-or-undefined value: `none` (undefined) and
`some ""` are falsy, any non-empty string is truthy. -/
def truthy : Option String → Option String
  | none => none
  | some s => if s = "" then none else some s

/-- JS `a || d` for a string-or-undefined `a` and a string default `d`. -/
def jsOr (a : Option String) (d : String) : String :=
  match truthy a with
  | some s => s
  | none => d

/-- JS `a || b` for two string-or-undefined values, followed by a
truthiness guard on the result (as in `const x = a || b; if (x) ...`). -/
def truthyOr (a b : Option String) : Option String :=
  match truthy a with
  | some s => some s
  | none => truthy b

/-- JS `s.startsWith(p)`. -/
def jsStartsWith (s p : String) : Bool :=
  p.data.isPrefixOf s.data

/-- JS `s.endsWith(p)`. -/
def jsEndsWith (s p : String) : Bool :=
  p.data.isSuffixOf s.data

/-- Substring test on character lists, used to model JS `s.includes(p)`. -/
def listInfix : List Char → List Char → Bool
  | pat, [] => pat.isEmpty
  | pat, c :: t => pat.isPrefixOf (c :: t) || listInfix pat t

/-- JS `s.includes(p)`. -/
def jsIncludes (s p : String) : Bool :=
  listInfix p.data s.data

/-- Splitting a character list at every occurrence of a separator,
modelling JS `String.prototype.split` with a single-character separator
(`''.split(c)` gives `['']`, adjacent separators give empty fields). -/
def jsSplitCharAux (sep : Char) : List Char → List Char → List String
  | [], cur => [String.mk cur.reverse]
  | c :: rest, cur =>
      if c = sep then String.mk cur.reverse :: jsSplitCharAux sep rest []
      else jsSplitCharAux sep rest (c :: cur)

/-- JS `s.split(sep)` for a one-character separator. -/
def jsSplitChar (sep : Char) (s : String) : List String :=
  jsSplitCharAux sep s.data []

/-- JS `s.trim()`: drop whitespace from both ends. -/
def jsTrim (s : String) : String :=
  String.mk (((s.data.dropWhile Char.isWhitespace).reverse.dropWhile
    Char.isWhitespace).reverse)

/-- JS `s.replace(/\D/g, '')`: keep only decimal digits. -/
def stripNonDigits (s : String) : String :=
  String.mk (s.data.filter Char.isDigit)

/-- Decimal value of a digit string. -/
def digitsToNat (cs : List Char) : Nat :=
  cs.foldl (fun n c => n * 10 + (c.toNat - 48)) 0

/-- JS `parseInt` restricted to the inputs it receives in this program:
strings consisting solely of decimal digits (they are produced by
`stripNonDigits`).  `parseInt('')` is `NaN`, modelled as `none`. -/
def jsParseIntDigits (s : String) : Option Nat :=
  if s.data.isEmpty then none else some (digitsToNat s.data)

/-! ### Constants and the canonical image record -/

/-- Fixed collection base origin (`BASE_URL` in the source). -/
def BASE_URL : String := "https://collections.louvre.fr"

/-- Detail path segment (`API_URL` in the source). -/
def API_URL : String := "ark:/53355"

/-- Canonical image entry (`LouvreImage` in the source): a numeric
position, a free-form type classifier and a URL. -/
structure LouvreImage where
  position : Int
  type : String
  url : String
deriving DecidableEq, Repr

/-- Root-relative URL coercion performed at each normalization site:
`if (imgUrl.startsWith('/')) imgUrl = BASE_URL + imgUrl`. -/
def resolveUrl (u : String) : String :=
  if jsStartsWith u "/" then BASE_URL ++ u else u

/-! ### `fetchLouvreAPI` URL construction -/

/-- Result of the URL construction in `fetchLouvreAPI`: origin, pathname
(after the conditional `.json` suffix) and serialized query parameters. -/
structure UrlModel where
  origin : String
  pathname : String
  searchParams : List (String × String)
deriving DecidableEq, Repr

/-- Pathname produced by `fetchLouvreAPI`: `.json` is appended unless the
pathname already ends in `.json` or contains `.json?`. -/
def louvrePathname (path : String) : String :=
  if !(jsEndsWith path ".json") && !(jsIncludes path ".json?") then
    path ++ ".json"
  else path

/-- Query-string serialization in `fetchLouvreAPI`: every entry whose
value is not `undefined` is appended (already stringified); `undefined`
entries are skipped. -/
def serializeParams (params : List (String × Option String)) :
    List (String × String) :=
  params.filterMap (fun kv => kv.2.map (fun v => (kv.1, v)))

/-- URL built by `fetchLouvreAPI(path, params)` against the fixed base
origin. -/
def fetchLouvreAPIUrl (path : String)
    (params : List (String × Option String)) : UrlModel :=
  { origin := BASE_URL
    pathname := louvrePathname path
    searchParams := serializeParams params }

/-! ### API image normalization (`get-artwork-images` handler) -/

/-- Element of a raw `image` array from the structured JSON source: a
bare string, an object carrying one of the recognized URL keys
(`url`/`uri`/`src`/`path`) and an optional `type`, or anything else. -/
inductive RawImg where
  | str (s : String)
  | obj (url uri src path ty : Option String)
  | other
deriving DecidableEq, Repr

/-- URL extracted from an array element, including the truthiness guard
`if (imgUrl)` that precedes the push. -/
def RawImg.extractUrl : RawImg → Option String
  | .str s => truthy (some s)
  | .obj u ur sr pa _ =>
      match truthy u with
      | some s => some s
      | none =>
          match truthy ur with
          | some s => some s
          | none => truthyOr sr pa
  | .other => none

/-- Type taken from an array element: `img.type || 'unspecified'`. -/
def RawImg.extractType : RawImg → String
  | .str _ => "unspecified"
  | .obj _ _ _ _ ty => jsOr ty "unspecified"
  | .other => "unspecified"

/-- Array-shaped normalization: each element is visited with its array
index; elements with no usable URL are skipped, kept URLs are made
absolute. -/
def processImagesArrayAux (i : Int) : List RawImg → List LouvreImage
  | [] => []
  | img :: rest =>
      match img.extractUrl with
      | some u =>
          ⟨i, img.extractType, resolveUrl u⟩ :: processImagesArrayAux (i + 1) rest
      | none => processImagesArrayAux (i + 1) rest

/-- Normalization of an array-shaped `image` field. -/
def processImagesArray (imgs : List RawImg) : List LouvreImage :=
  processImagesArrayAux 0 imgs

/-- Value of a keyed-object `image` field: a bare string or an object
with one of `url`/`uri`/`src`. -/
inductive RawVal where
  | str (s : String)
  | obj (url uri src : Option String)
  | other
deriving DecidableEq, Repr

/-- URL extracted from a keyed-object value (with the push guard). -/
def RawVal.extractUrl : RawVal → Option String
  | .str s => truthy (some s)
  | .obj u ur sr =>
      match truthy u with
      | some s => some s
      | none => truthyOr ur sr
  | .other => none

/-- Keyed-object normalization: each key becomes the type, the key's
ordinal index the position; URLs are made absolute. -/
def processImagesObjectAux (i : Int) :
    List (String × RawVal) → List LouvreImage
  | [] => []
  | (key, v) :: rest =>
      match v.extractUrl with
      | some u =>
          ⟨i, key, resolveUrl u⟩ :: processImagesObjectAux (i + 1) rest
      | none => processImagesObjectAux (i + 1) rest

/-- Normalization of a keyed-object `image` field. -/
def processImagesObject (entries : List (String × RawVal)) :
    List LouvreImage :=
  processImagesObjectAux 0 entries

/-! ### HTML page-image fallback (`getImagesFromHtml`) -/

/-- An `<img>` element on the artwork's detail page, with the attributes
the scraper reads. -/
structure ImgElement where
  src : Option String
  dataSrc : Option String
  alt : Option String
deriving DecidableEq, Repr

/-- Image entry built by the HTML fallback; it additionally carries the
element's `alt` text. -/
structure HtmlImageEntry where
  position : Int
  type : String
  url : String
  alt : String
deriving DecidableEq, Repr

/-- Heuristic type classification by substring match on the image URL. -/
def classifyImgType (src : String) : String :=
  if jsIncludes src "small" || jsIncludes src "thumb" then "thumbnail"
  else if jsIncludes src "large" || jsIncludes src "full" then "full"
  else "unknown"

/-- Per-element scan of `$('img')` with its running index: the element's
`src || data-src` is taken (skipping falsy values), classified and made
absolute. -/
def extractPageImagesAux (i : Int) : List ImgElement → List HtmlImageEntry
  | [] => []
  | el :: rest =>
      match truthyOr el.src el.dataSrc with
      | some src =>
          ⟨i, classifyImgType src, resolveUrl src, jsOr el.alt ""⟩ ::
            extractPageImagesAux (i + 1) rest
      | none => extractPageImagesAux (i + 1) rest

/-- Image extraction from a detail page's `<img>` elements. -/
def extractPageImages (elems : List ImgElement) : List HtmlImageEntry :=
  extractPageImagesAux 0 elems

/-- Forget the `alt` text, yielding a canonical image entry. -/
def HtmlImageEntry.toImage (e : HtmlImageEntry) : LouvreImage :=
  ⟨e.position, e.type, e.url⟩

/-! ### Resolver: structured source first, HTML fallback second -/

/-- Shape of a successfully fetched record's `image` field: a JSON
array, a keyed object, a falsy value (`undefined`/`null`/`''`/…), or any
other truthy non-object value. -/
inductive RawImageField where
  | arr (imgs : List RawImg)
  | keyed (entries : List (String × RawVal))
  | falsy
  | otherTruthy
deriving DecidableEq, Repr

/-- Normalized image list obtained from a structured response. -/
def normalizeImages : RawImageField → List LouvreImage
  | .arr imgs => processImagesArray imgs
  | .keyed entries => processImagesObject entries
  | .falsy => []
  | .otherTruthy => []

/-- The early guard `!artworkDetails.image || artworkDetails.image.length
=== 0` (for non-arrays `.length` is `undefined`, which is not `=== 0`). -/
def apiImagesEmptyCheck : RawImageField → Bool
  | .arr imgs => imgs.isEmpty
  | .keyed _ => false
  | .falsy => true
  | .otherTruthy => false

/-- Outcome of the `get-artwork-images` handler once the structured fetch
has succeeded: either the HTML-scraping fallback is invoked, or the
processed images are formatted directly. -/
inductive FetchDecision where
  | htmlFallback
  | formatted (images : List LouvreImage)
deriving DecidableEq, Repr

/-- Control flow of the handler after a successful structured fetch:
fall back to HTML when the early guard fires or when normalization
produced no images, otherwise format the processed images. -/
def getArtworkImagesDecision (image : RawImageField) : FetchDecision :=
  if apiImagesEmptyCheck image then .htmlFallback
  else
    let processed := normalizeImages image
    if processed.isEmpty then .htmlFallback else .formatted processed

/-! ### Image selection (`formatImageResponse`) -/

/-- Type under which an image is grouped: `img.type || 'unspecified'`. -/
def typeOf (img : LouvreImage) : String :=
  if img.type = "" then "unspecified" else img.type

/-- Append an image to its type's group, creating the group at the end
when the type is new — the incremental population of the plain JS object
`imagesByType` (string keys keep insertion order). -/
def insertImage (acc : List (String × List LouvreImage)) (t : String)
    (img : LouvreImage) : List (String × List LouvreImage) :=
  match acc with
  | [] => [(t, [img])]
  | (k, gs) :: rest =>
      if k = t then (k, gs ++ [img]) :: rest
      else (k, gs) :: insertImage rest t img

/-- Grouping of the image list by type, keys in first-occurrence order,
images in insertion order within each group. -/
def groupByType (images : List LouvreImage) :
    List (String × List LouvreImage) :=
  images.foldl (fun acc img => insertImage acc (typeOf img) img) []

/-- The record's type-discovery order: `Object.keys(imagesByType)`. -/
def availableTypesOf (images : List LouvreImage) : List String :=
  (groupByType images).map Prod.fst

/-- Stable insertion into a position-sorted list (an element is placed
before the first strictly later one, preserving the relative order of
equal positions). -/
def insertByPosition (img : LouvreImage) :
    List LouvreImage → List LouvreImage
  | [] => [img]
  | y :: ys =>
      if img.position ≤ y.position then img :: y :: ys
      else y :: insertByPosition img ys

/-- Stable sort by ascending position, the behaviour of
`selectedImages.sort((a, b) => a.position - b.position)` (JS `sort` is
stable, and a stable sort is uniquely determined by the comparator). -/
def sortByPosition : List LouvreImage → List LouvreImage
  | [] => []
  | x :: xs => insertByPosition x (sortByPosition xs)

/-- JS `availableTypes[0] || 'unspecified'`. -/
def jsHeadOr (xs : List String) (d : String) : String :=
  match xs with
  | [] => d
  | x :: _ => if x = "" then d else x

/-- Selection outcome of `formatImageResponse`, abstracting which branch
produced the response text and with which payload. -/
inductive ImageResult where
  | notFoundAtPosition (position : Int)
  | singleImage (position : Int) (img : LouvreImage)
  | typedImages (selectedType : String) (images : List LouvreImage)
  | allImages (groups : List (String × List LouvreImage))
deriving DecidableEq, Repr

/-- Branch structure of `formatImageResponse(id, type, position, images,
open_browser)`: a supplied position short-circuits everything and is
looked up with `images.find`; otherwise images are grouped by type, a
requested type other than `'all'` selects its group (or the first
available group when absent) sorted by position, and `'all'`/no type
returns every group untouched. -/
def formatImageResponse (type? : Option String) (position? : Option Int)
    (images : List LouvreImage) : ImageResult :=
  match position? with
  | some position =>
      (match images.find? (fun img => img.position == position) with
       | none => .notFoundAtPosition position
       | some img => .singleImage position img)
  | none =>
      let imagesByType := groupByType images
      let availableTypes := imagesByType.map Prod.fst
      match type? with
      | some t =>
          if t ≠ "all" then
            let selectedType :=
              if availableTypes.contains t then t
              else jsHeadOr availableTypes "unspecified"
            let selectedImages := (List.lookup selectedType imagesByType).getD []
            .typedImages selectedType (sortByPosition selectedImages)
          else .allImages imagesByType
      | none => .allImages imagesByType

/-! ### Search-card extraction and pagination (`search-artwork`) -/

/-- A result card in the search grid with the pieces the scraper reads:
the first anchor's `href`, the card image's `data-src`/`src`/`title`
attributes, and the title and author texts. -/
structure SearchCard where
  href : Option String
  dataSrc : Option String
  src : Option String
  imgTitle : Option String
  titleText : String
  authorText : String
deriving DecidableEq, Repr

/-- Image URL taken from a card:
`imgElement.attr('data-src') || imgElement.attr('src') || ''`. -/
def searchCardImageUrl (card : SearchCard) : String :=
  jsOr card.dataSrc (jsOr card.src "")

/-- Image list of the partial record built from a card: the URL is
stored verbatim, typed `thumbnail` at position `0`, or no image at all
when the URL is falsy. -/
def searchCardImages (card : SearchCard) : List LouvreImage :=
  if searchCardImageUrl card = "" then []
  else [⟨0, "thumbnail", searchCardImageUrl card⟩]

/-- Identifier taken from a card: the trailing path segment of the
anchor's `href` (`url.split('/').pop()`), `''` when the href is falsy. -/
def searchCardId (card : SearchCard) : String :=
  match truthy card.href with
  | some u => (jsSplitChar (Char.ofNat 47) u).getLastD ""
  | none => ""

/-- First space-delimited token: `text.trim().split(' ')[0]`. -/
def jsFirstSpaceToken (text : String) : String :=
  ((jsSplitChar (Char.ofNat 32) (jsTrim text)).headD "")

/-- Total result count parsed from the count element's text:
`parseInt((text.trim().split(' ')[0] || '0').replace(/\D/g, ''))`,
`none` standing for `NaN`. -/
def totalResultsOf (countText : String) : Option Nat :=
  let tok := jsFirstSpaceToken countText
  let txt := if tok = "" then "0" else tok
  jsParseIntDigits (stripNonDigits txt)

/-- `Math.ceil(totalResults / 20)` with a 20-results page size;
ceiling division on `Nat` is `(n + 19) / 20`, and `Math.ceil(NaN)` is
again `NaN` (`none`). -/
def totalPagesOf (countText : String) : Option Nat :=
  (totalResultsOf countText).map (fun n => (n + 19) / 20)

/-! ### Search URL construction -/

/-- Unreserved characters of `encodeURIComponent`. -/
def isUnreservedURIChar (c : Char) : Bool :=
  c.isAlphanum || c == Char.ofNat 45 || c == Char.ofNat 95 ||
    c == Char.ofNat 46 || c == Char.ofNat 33 || c == Char.ofNat 126 ||
    c == Char.ofNat 42 || c == Char.ofNat 39 || c == Char.ofNat 40 ||
    c == Char.ofNat 41

/-- UTF-8 bytes of a code point. -/
def utf8Bytes (n : Nat) : List Nat :=
  if n < 128 then [n]
  else if n < 2048 then [192 + n / 64, 128 + n % 64]
  else if n < 65536 then
    [224 + n / 4096, 128 + (n / 64) % 64, 128 + n % 64]
  else
    [240 + n / 262144, 128 + (n / 4096) % 64, 128 + (n / 64) % 64,
      128 + n % 64]

/-- Uppercase hexadecimal digit. -/
def hexDigit (n : Nat) : Char :=
  if n < 10 then Char.ofNat (48 + n) else Char.ofNat (55 + n)

/-- Percent-encoding of one character. -/
def percentEncodeChar (c : Char) : List Char :=
  (utf8Bytes c.toNat).foldr
    (fun b acc => Char.ofNat 37 :: hexDigit (b / 16) :: hexDigit (b % 16) :: acc)
    []

/-- JS `encodeURIComponent`. -/
def encodeURIComponent (s : String) : String :=
  String.mk (s.data.foldr
    (fun c acc =>
      if isUnreservedURIChar c then c :: acc else percentEncodeChar c ++ acc)
    [])

/-- JS `page || 1` on a number-or-undefined value (`0` is falsy). -/
def jsOrInt (p : Option Int) (d : Int) : Int :=
  match p with
  | some v => if v = 0 then d else v
  | none => d

/-- Search URL built by the `search-artwork` handler. -/
def searchUrl (query : String) (page : Option Int) : String :=
  "https://collections.louvre.fr/recherche?page=" ++
    toString (jsOrInt page 1) ++ "&q=" ++ encodeURIComponent query

/-! ### Helper lemmas -/

/-- URLs that have gone through `resolveUrl` never start with `/`. -/
theorem resolveUrl_not_root (u : String) :
    jsStartsWith (resolveUrl u) "/" = false := by
  unfold resolveUrl
  by_cases h : jsStartsWith u "/" = true
  · simp only [h, if_true]
    unfold jsStartsWith
    rw [String.data_append]
    have hb : BASE_URL.data =
        Char.ofNat 104 :: "ttps://collections.louvre.fr".data := by decide
    have hs : ("/" : String).data = [Char.ofNat 47] := by decide
    rw [hb, hs, List.cons_append]
    simp [List.isPrefixOf]
  · simp only [Bool.not_eq_true] at h
    simp [h]

/-- A substring hit implies every character of the pattern occurs in the
scanned string. -/
theorem listInfix_subset {pat l : List Char} (h : listInfix pat l = true) :
    ∀ c ∈ pat, c ∈ l := by
  induction l with
  | nil =>
    simp [listInfix, List.isEmpty_iff] at h
    simp [h]
  | cons x t ih =>
    simp only [listInfix, Bool.or_eq_true] at h
    rcases h with h | h
    · have hpre : pat <+: x :: t := List.isPrefixOf_iff_prefix.mp h
      intro c hc
      exact hpre.subset hc
    · intro c hc
      exact List.mem_cons_of_mem x (ih h c hc)

/-- A pathname free of `?` cannot contain `.json?`. -/
theorem jsIncludes_json_query_false {path : String}
    (h : Char.ofNat 63 ∉ path.data) : jsIncludes path ".json?" = false := by
  by_contra hc
  simp only [Bool.not_eq_false] at hc
  have : Char.ofNat 63 ∈ path.data :=
    listInfix_subset hc (Char.ofNat 63) (by decide)
  exact h this

/-- Stable insertion produces a permutation of consing. -/
theorem perm_insertByPosition (img : LouvreImage) (l : List LouvreImage) :
    (insertByPosition img l).Perm (img :: l) := by
  induction l with
  | nil => simp [insertByPosition]
  | cons y ys ih =>
    unfold insertByPosition
    by_cases h : img.position ≤ y.position
    · simp [h]
    · simp only [h, if_false]
      exact ((ih.cons y).trans (List.Perm.swap img y ys))

/-- The position sort permutes its input. -/
theorem perm_sortByPosition (l : List LouvreImage) :
    (sortByPosition l).Perm l := by
  induction l with
  | nil => simp [sortByPosition]
  | cons x xs ih =>
    unfold sortByPosition
    exact (perm_insertByPosition x (sortByPosition xs)).trans (ih.cons x)

/-- Stable insertion preserves sortedness by position. -/
theorem pairwise_insertByPosition (img : LouvreImage) {l : List LouvreImage}
    (h : l.Pairwise (fun a b => a.position ≤ b.position)) :
    (insertByPosition img l).Pairwise (fun a b => a.position ≤ b.position) := by
  induction l with
  | nil => simp [insertByPosition]
  | cons y ys ih =>
    rcases List.pairwise_cons.mp h with ⟨hy, hys⟩
    unfold insertByPosition
    by_cases hp : img.position ≤ y.position
    · simp only [hp, if_true]
      refine List.pairwise_cons.mpr ⟨?_, h⟩
      intro z hz
      rcases List.mem_cons.mp hz with rfl | hz
      · exact hp
      · exact le_trans hp (hy z hz)
    · simp only [hp, if_false]
      refine List.pairwise_cons.mpr ⟨?_, ih hys⟩
      intro z hz
      have hz' := (perm_insertByPosition img ys).mem_iff.mp hz
      rcases List.mem_cons.mp hz' with rfl | hz'
      · exact le_of_not_le hp
      · exact hy z hz'

/-- The position sort is sorted (non-decreasing in position). -/
theorem pairwise_sortByPosition (l : List LouvreImage) :
    (sortByPosition l).Pairwise (fun a b => a.position ≤ b.position) := by
  induction l with
  | nil => simp [sortByPosition]
  | cons x xs ih =>
    unfold sortByPosition
    exact pairwise_insertByPosition x ih

/-- Group types are never the empty string. -/
theorem typeOf_ne_empty (img : LouvreImage) : typeOf img ≠ "" := by
  unfold typeOf
  by_cases h : img.type = "" <;> simp [h]

/-- Folding the group-insertion step over a non-empty accumulator keeps
the head key, appends exactly the matching images to the head group, and
threads the rest through the tail accumulator. -/
theorem foldl_insertImage_cons (xs : List LouvreImage) :
    ∀ (k : String) (gs : List LouvreImage)
      (acc2 : List (String × List LouvreImage)),
      xs.foldl (fun acc img => insertImage acc (typeOf img) img)
          ((k, gs) :: acc2) =
        (k, gs ++ xs.filter (fun i => typeOf i == k)) ::
          (xs.filter (fun i => !(typeOf i == k))).foldl
            (fun acc img => insertImage acc (typeOf img) img) acc2 := by
  induction xs with
  | nil => intro k gs acc2; simp
  | cons x xs ih =>
    intro k gs acc2
    rw [List.foldl_cons]
    by_cases h : k = typeOf x
    · subst h
      rw [show insertImage ((typeOf x, gs) :: acc2) (typeOf x) x
            = (typeOf x, gs ++ [x]) :: acc2 by simp [insertImage]]
      rw [ih]
      simp [List.filter_cons]
    · have hbeq : (typeOf x == k) = false :=
        beq_eq_false_iff_ne.mpr (fun hc => h hc.symm)
      rw [show insertImage ((k, gs) :: acc2) (typeOf x) x
            = (k, gs) :: insertImage acc2 (typeOf x) x by simp [insertImage, h]]
      rw [ih]
      simp [List.filter_cons, hbeq, List.foldl_cons]

/-- Unfolding of the grouping on a cons: the first image opens the first
group, which collects every image of its type; the remaining images are
grouped recursively. -/
theorem groupByType_cons (x : LouvreImage) (xs : List LouvreImage) :
    groupByType (x :: xs) =
      (typeOf x, x :: xs.filter (fun i => typeOf i == typeOf x)) ::
        groupByType (xs.filter (fun i => !(typeOf i == typeOf x))) := by
  unfold groupByType
  simp only [List.foldl_cons, insertImage]
  rw [foldl_insertImage_cons]
  simp

/-- Every group key is the type of some grouped image. -/
theorem mem_keys_groupByType :
    ∀ (n : Nat) (xs : List LouvreImage), xs.length ≤ n → ∀ t : String,
      t ∈ (groupByType xs).map Prod.fst → ∃ i ∈ xs, typeOf i = t := by
  intro n
  induction n with
  | zero =>
    intro xs h t ht
    have : xs = [] := List.length_eq_zero.mp (Nat.le_zero.mp h)
    subst this
    simp [groupByType] at ht
  | succ n ih =>
    intro xs h t ht
    match xs with
    | [] => simp [groupByType] at ht
    | x :: xs' =>
      rw [groupByType_cons] at ht
      simp only [List.map_cons, List.mem_cons] at ht
      rcases ht with rfl | ht
      · exact ⟨x, List.mem_cons_self x xs', rfl⟩
      · have hlen : (xs'.filter (fun i => !(typeOf i == typeOf x))).length ≤ n :=
          le_trans (List.length_filter_le _ _) (Nat.le_of_succ_le_succ h)
        rcases ih _ hlen t ht with ⟨i, hi, hit⟩
        exact ⟨i, List.mem_cons_of_mem x (List.mem_filter.mp hi).1, hit⟩

/-- Looking up a type that some image carries returns exactly the images
of that type, in their original order. -/
theorem lookup_groupByType :
    ∀ (n : Nat) (xs : List LouvreImage), xs.length ≤ n → ∀ t : String,
      (∃ i ∈ xs, typeOf i = t) →
      List.lookup t (groupByType xs) =
        some (xs.filter (fun i => typeOf i == t)) := by
  intro n
  induction n with
  | zero =>
    intro xs h t hex
    have : xs = [] := List.length_eq_zero.mp (Nat.le_zero.mp h)
    subst this
    simp at hex
  | succ n ih =>
    intro xs h t hex
    match xs with
    | [] => simp at hex
    | x :: xs' =>
      rw [groupByType_cons]
      by_cases hx : typeOf x = t
      · have hbeq : (t == typeOf x) = true := beq_iff_eq.mpr hx.symm
        have hbeq' : (typeOf x == t) = true := beq_iff_eq.mpr hx
        simp only [List.lookup, hbeq, List.filter_cons, hbeq', if_true]
        subst hx
        rfl
      · have hbeq : (t == typeOf x) = false :=
          beq_eq_false_iff_ne.mpr (fun hc => hx hc.symm)
        have hbeq' : (typeOf x == t) = false := beq_eq_false_iff_ne.mpr hx
        simp only [List.lookup, hbeq, List.filter_cons, hbeq', if_false]
        have hlen : (xs'.filter (fun i => !(typeOf i == typeOf x))).length ≤ n :=
          le_trans (List.length_filter_le _ _) (Nat.le_of_succ_le_succ h)
        have hex' : ∃ i ∈ xs'.filter (fun i => !(typeOf i == typeOf x)),
            typeOf i = t := by
          rcases hex with ⟨i, hi, hit⟩
          rcases List.mem_cons.mp hi with rfl | hi
          · exact absurd hit hx
          · refine ⟨i, List.mem_filter.mpr ⟨hi, ?_⟩, hit⟩
            have : (typeOf i == typeOf x) = false := by
              refine beq_eq_false_iff_ne.mpr ?_
              rw [hit]
              exact fun hc => hx hc.symm
            simp [this]
        rw [ih _ hlen t hex', List.filter_filter]
        congr 1
        refine List.filter_congr ?_
        intro i _
        have hnt : (t == typeOf x) = false :=
          beq_eq_false_iff_ne.mpr (fun hc => hx hc.symm)
        by_cases h2 : typeOf i = t
        · simp [h2, hnt]
        · simp [beq_eq_false_iff_ne.mpr h2]

/-- The position branch of `formatImageResponse` ignores the requested
type entirely. -/
theorem formatImageResponse_pos (type? : Option String) (p : Int)
    (images : List LouvreImage) :
    formatImageResponse type? (some p) images =
      (match images.find? (fun img => img.position == p) with
       | none => ImageResult.notFoundAtPosition p
       | some img => ImageResult.singleImage p img) := rfl

/-- Unfolding of the typed branch of `formatImageResponse`. -/
theorem formatImageResponse_typed (t : String) (images : List LouvreImage)
    (ht : t ≠ "all") :
    formatImageResponse (some t) none images =
      ImageResult.typedImages
        (if ((groupByType images).map Prod.fst).contains t then t
         else jsHeadOr ((groupByType images).map Prod.fst) "unspecified")
        (sortByPosition
          ((List.lookup
              (if ((groupByType images).map Prod.fst).contains t then t
               else jsHeadOr ((groupByType images).map Prod.fst) "unspecified")
              (groupByType images)).getD [])) := by
  simp [formatImageResponse, ht]

/-! ### Auxiliary facts about the normalization paths -/

/-- Array normalization only stores coerced URLs. -/
theorem processImagesArrayAux_not_root :
    ∀ (imgs : List RawImg) (i : Int) (e : LouvreImage),
      e ∈ processImagesArrayAux i imgs → jsStartsWith e.url "/" = false := by
  intro imgs
  induction imgs with
  | nil => intro i e h; simp [processImagesArrayAux] at h
  | cons img rest ih =>
    intro i e h
    cases hu : img.extractUrl with
    | some u =>
      simp only [processImagesArrayAux, hu, List.mem_cons] at h
      rcases h with rfl | h
      · exact resolveUrl_not_root u
      · exact ih (i + 1) e h
    | none =>
      simp only [processImagesArrayAux, hu] at h
      exact ih (i + 1) e h

/-- Keyed-object normalization only stores coerced URLs. -/
theorem processImagesObjectAux_not_root :
    ∀ (entries : List (String × RawVal)) (i : Int) (e : LouvreImage),
      e ∈ processImagesObjectAux i entries → jsStartsWith e.url "/" = false := by
  intro entries
  induction entries with
  | nil => intro i e h; simp [processImagesObjectAux] at h
  | cons kv rest ih =>
    intro i e h
    cases hu : kv.2.extractUrl with
    | some u =>
      rw [show kv = (kv.1, kv.2) from rfl] at h
      simp only [processImagesObjectAux, hu, List.mem_cons] at h
      rcases h with rfl | h
      · exact resolveUrl_not_root u
      · exact ih (i + 1) e h
    | none =>
      rw [show kv = (kv.1, kv.2) from rfl] at h
      simp only [processImagesObjectAux, hu] at h
      exact ih (i + 1) e h

/-- HTML page-image extraction only stores coerced URLs. -/
theorem extractPageImagesAux_not_root :
    ∀ (elems : List ImgElement) (i : Int) (e : HtmlImageEntry),
      e ∈ extractPageImagesAux i elems → jsStartsWith e.url "/" = false := by
  intro elems
  induction elems with
  | nil => intro i e h; simp [extractPageImagesAux] at h
  | cons el rest ih =>
    intro i e h
    cases hu : truthyOr el.src el.dataSrc with
    | some u =>
      simp only [extractPageImagesAux, hu, List.mem_cons] at h
      rcases h with rfl | h
      · exact resolveUrl_not_root u
      · exact ih (i + 1) e h
    | none =>
      simp only [extractPageImagesAux, hu] at h
      exact ih (i + 1) e h

/-- Entries produced by the element scan, positioned relative to the
running index. -/
theorem mem_extractPageImagesAux :
    ∀ (elems : List ImgElement) (k : Int) (i : Nat) (el : ImgElement)
      (src : String), elems[i]? = some el →
      truthyOr el.src el.dataSrc = some src →
      (⟨k + i, classifyImgType src, resolveUrl src, jsOr el.alt ""⟩ :
        HtmlImageEntry) ∈ extractPageImagesAux k elems := by
  intro elems
  induction elems with
  | nil => intro k i el src h1 _; simp at h1
  | cons e rest ih =>
    intro k i el src h1 h2
    cases i with
    | zero =>
      rw [List.getElem?_cons_zero] at h1
      injection h1 with h1
      subst h1
      simp only [extractPageImagesAux, h2, Nat.cast_zero, add_zero]
      exact List.mem_cons_self _ _
    | succ i =>
      rw [List.getElem?_cons_succ] at h1
      have hpos : k + ((i + 1 : Nat) : Int) = (k + 1) + (i : Int) := by
        push_cast
        ring
      rw [hpos]
      cases hsrc : truthyOr e.src e.dataSrc with
      | some s =>
        simp only [extractPageImagesAux, hsrc]
        exact List.mem_cons_of_mem _ (ih (k + 1) i el src h1 h2)
      | none =>
        simp only [extractPageImagesAux, hsrc]
        exact ih (k + 1) i el src h1 h2

/-! ### Claim theorems -/

/-- Claim C1 (amended).  In the three normalization paths that feed
`formatImageResponse` — API-array normalization, keyed-object
normalization, and the HTML page-image fallback — every stored image URL
has been through the root-relative coercion against the collection base
URL, so no stored URL starts with `/`.  The claim's fourth path,
search-card extraction, does not perform this coercion (see the
counterexample), so the original invariant does not hold there. -/
theorem c1_images_absolute_amended (imgs : List RawImg)
    (entries : List (String × RawVal)) (elems : List ImgElement) :
    (∀ e ∈ processImagesArray imgs, jsStartsWith e.url "/" = false) ∧
    (∀ e ∈ processImagesObject entries, jsStartsWith e.url "/" = false) ∧
    (∀ e ∈ extractPageImages elems, jsStartsWith e.url "/" = false) :=
  ⟨fun e he => processImagesArrayAux_not_root imgs 0 e he,
   fun e he => processImagesObjectAux_not_root entries 0 e he,
   fun e he => extractPageImagesAux_not_root elems 0 e he⟩

/-- Claim C1 counterexample.  A search card whose image carries a
root-relative `data-src` produces an `ImageEntry` whose URL still starts
with `/`: the search-card path stores the extracted URL verbatim. -/
theorem c1_counterexample :
    searchCardImages
        ⟨some "/ark:/53355/cl010062370", some "/media/thumb.jpg", none,
          none, "La Joconde", "Leonardo di ser Piero da Vinci"⟩ =
      [⟨0, "thumbnail", "/media/thumb.jpg"⟩] ∧
    jsStartsWith "/media/thumb.jpg" "/" = true := by decide

/-- Claim C1 witness: the amended theorem applied to a concrete
root-relative API image. -/
theorem c1_witness :
    jsStartsWith
      (LouvreImage.url
        ⟨0, "unspecified", "https://collections.louvre.fr/a.jpg"⟩) "/"
      = false :=
  (c1_images_absolute_amended [RawImg.str "/a.jpg"] [] []).1
    ⟨0, "unspecified", "https://collections.louvre.fr/a.jpg"⟩ (by decide)

/-- Claim C2.  With a supplied position, selection ignores the requested
type, scans the flat image list for an entry at that position, answers
not-found naming the position when none matches, and returns the single
matching image otherwise. -/
theorem c2_position_lookup (type? : Option String) (p : Int)
    (images : List LouvreImage) (_hne : images ≠ []) :
    (formatImageResponse type? (some p) images
        = formatImageResponse none (some p) images) ∧
    ((∀ img ∈ images, img.position ≠ p) →
      formatImageResponse type? (some p) images
        = ImageResult.notFoundAtPosition p) ∧
    ((∃ img ∈ images, img.position = p) →
      ∃ img ∈ images, img.position = p ∧
        formatImageResponse type? (some p) images
          = ImageResult.singleImage p img) := by
  refine ⟨rfl, ?_, ?_⟩
  · intro hall
    rw [formatImageResponse_pos]
    have hnone : images.find? (fun img => img.position == p) = none := by
      rw [List.find?_eq_none]
      intro x hx
      simpa [beq_iff_eq] using hall x hx
    rw [hnone]
  · intro hex
    have hsome : (images.find? (fun img => img.position == p)).isSome := by
      rw [List.find?_isSome]
      rcases hex with ⟨img, hmem, hp⟩
      exact ⟨img, hmem, beq_iff_eq.mpr hp⟩
    cases hfind : images.find? (fun img => img.position == p) with
    | none => rw [hfind] at hsome; simp at hsome
    | some img =>
      refine ⟨img, List.mem_of_find?_eq_some hfind, ?_, ?_⟩
      · have h3 := List.find?_some hfind
        simpa [beq_iff_eq] using h3
      · rw [formatImageResponse_pos, hfind]

/-- Claim C2 witness: position 0 is found among entries of a different
type than the requested one. -/
theorem c2_witness :
    ∃ img ∈ ([⟨0, "thumbnail", "a"⟩, ⟨0, "full", "b"⟩] : List LouvreImage),
      img.position = 0 ∧
      formatImageResponse (some "full") (some 0)
          [⟨0, "thumbnail", "a"⟩, ⟨0, "full", "b"⟩]
        = ImageResult.singleImage 0 img :=
  (c2_position_lookup (some "full") 0
      [⟨0, "thumbnail", "a"⟩, ⟨0, "full", "b"⟩] (by decide)).2.2
    ⟨⟨0, "thumbnail", "a"⟩, by decide, by decide⟩

/-- Claim C3.  When the requested type (other than the wildcard `all`,
which is handled earlier) matches no existing group of a record with a
non-empty image list, selection falls back to the first group in
type-discovery order — the group of the first image — and the result is a
non-empty typed group, never a not-found. -/
theorem c3_type_fallback (x : LouvreImage) (xs : List LouvreImage)
    (t : String) (hall : t ≠ "all")
    (hmem : t ∉ availableTypesOf (x :: xs)) :
    ∃ imgs, formatImageResponse (some t) none (x :: xs)
        = ImageResult.typedImages (typeOf x) imgs ∧ imgs ≠ [] ∧
      imgs.Perm ((x :: xs).filter (fun i => typeOf i == typeOf x)) := by
  have hcont : (((groupByType (x :: xs)).map Prod.fst).contains t) = false := by
    apply Bool.eq_false_iff.mpr
    intro hc
    exact hmem (List.elem_iff.mp hc)
  rw [formatImageResponse_typed t _ hall]
  simp only [hcont, Bool.false_eq_true, if_false]
  have hkeys : (groupByType (x :: xs)).map Prod.fst
      = typeOf x ::
        (groupByType (xs.filter (fun i => !(typeOf i == typeOf x)))).map
          Prod.fst := by
    rw [groupByType_cons]
    simp
  rw [hkeys]
  have hhead : jsHeadOr
      (typeOf x ::
        (groupByType (xs.filter (fun i => !(typeOf i == typeOf x)))).map
          Prod.fst) "unspecified" = typeOf x := by
    simp [jsHeadOr, typeOf_ne_empty x]
  rw [hhead]
  have hlook : List.lookup (typeOf x) (groupByType (x :: xs))
      = some ((x :: xs).filter (fun i => typeOf i == typeOf x)) :=
    lookup_groupByType (x :: xs).length (x :: xs) le_rfl (typeOf x)
      ⟨x, List.mem_cons_self x xs, rfl⟩
  rw [hlook]
  refine ⟨sortByPosition ((x :: xs).filter (fun i => typeOf i == typeOf x)),
    rfl, ?_, perm_sortByPosition _⟩
  intro hemp
  have hperm := perm_sortByPosition
    ((x :: xs).filter (fun i => typeOf i == typeOf x))
  rw [hemp] at hperm
  have hfil : (x :: xs).filter (fun i => typeOf i == typeOf x)
      = x :: xs.filter (fun i => typeOf i == typeOf x) := by
    simp [List.filter_cons]
  rw [hfil] at hperm
  exact (List.cons_ne_nil x _) (hperm.symm.eq_nil)

/-- Claim C3 witness: requesting type `full` from a record holding only
a thumbnail yields the thumbnail group. -/
theorem c3_witness :
    ∃ imgs, formatImageResponse (some "full") none [⟨0, "thumbnail", "a"⟩]
        = ImageResult.typedImages (typeOf ⟨0, "thumbnail", "a"⟩) imgs ∧
      imgs ≠ [] ∧
      imgs.Perm
        (([⟨0, "thumbnail", "a"⟩] : List LouvreImage).filter
          (fun i => typeOf i == typeOf ⟨0, "thumbnail", "a"⟩)) :=
  c3_type_fallback ⟨0, "thumbnail", "a"⟩ [] "full" (by decide) (by decide)

/-- Claim C4.  When the requested type (other than the wildcard `all`,
handled earlier) matches an existing group, the result is exactly that
group — a permutation of the images of that type — sorted non-decreasing
by position. -/
theorem c4_typed_sorted (images : List LouvreImage) (t : String)
    (_hne : images ≠ []) (hall : t ≠ "all")
    (hmem : t ∈ availableTypesOf images) :
    ∃ imgs, formatImageResponse (some t) none images
        = ImageResult.typedImages t imgs ∧
      imgs.Perm (images.filter (fun i => typeOf i == t)) ∧
      imgs.Pairwise (fun a b => a.position ≤ b.position) := by
  have hcont : (((groupByType images).map Prod.fst).contains t) = true :=
    List.elem_iff.mpr hmem
  rw [formatImageResponse_typed t _ hall]
  simp only [hcont, if_true]
  have hex : ∃ i ∈ images, typeOf i = t :=
    mem_keys_groupByType images.length images le_rfl t hmem
  rw [lookup_groupByType images.length images le_rfl t hex]
  exact ⟨sortByPosition (images.filter (fun i => typeOf i == t)), rfl,
    perm_sortByPosition _, pairwise_sortByPosition _⟩

/-- Claim C4 witness: requesting `full` returns the full group sorted by
position even though it was discovered out of order. -/
theorem c4_witness :
    ∃ imgs, formatImageResponse (some "full") none
        [⟨1, "full", "b"⟩, ⟨0, "thumbnail", "t"⟩, ⟨0, "full", "a"⟩]
        = ImageResult.typedImages "full" imgs ∧
      imgs.Perm
        (([⟨1, "full", "b"⟩, ⟨0, "thumbnail", "t"⟩, ⟨0, "full", "a"⟩] :
            List LouvreImage).filter (fun i => typeOf i == "full")) ∧
      imgs.Pairwise (fun a b => a.position ≤ b.position) :=
  c4_typed_sorted [⟨1, "full", "b"⟩, ⟨0, "thumbnail", "t"⟩, ⟨0, "full", "a"⟩]
    "full" (by decide) (by decide) (by decide)

/-- Claim C5.  After a successful structured fetch, the handler invokes
the HTML-scraping fallback exactly when the normalized image list is
empty: a non-empty normalized list is formatted directly and scraping is
never consulted. -/
theorem c5_fallback_iff_no_images (image : RawImageField) :
    getArtworkImagesDecision image = FetchDecision.htmlFallback ↔
      normalizeImages image = [] := by
  cases image with
  | arr imgs =>
    cases imgs with
    | nil => simp [getArtworkImagesDecision, apiImagesEmptyCheck,
        normalizeImages, processImagesArray, processImagesArrayAux]
    | cons a l =>
      by_cases hp : processImagesArray (a :: l) = []
      · simp [getArtworkImagesDecision, apiImagesEmptyCheck,
          normalizeImages, hp]
      · simp [getArtworkImagesDecision, apiImagesEmptyCheck,
          normalizeImages, hp, List.isEmpty_iff]
  | keyed entries =>
    by_cases hp : processImagesObject entries = []
    · simp [getArtworkImagesDecision, apiImagesEmptyCheck,
        normalizeImages, hp]
    · simp [getArtworkImagesDecision, apiImagesEmptyCheck,
        normalizeImages, hp, List.isEmpty_iff]
  | falsy =>
    simp [getArtworkImagesDecision, apiImagesEmptyCheck, normalizeImages]
  | otherTruthy =>
    simp [getArtworkImagesDecision, apiImagesEmptyCheck, normalizeImages]

/-- Claim C6.  The URL built by `fetchLouvreAPI` keeps the fixed base
origin, appends `.json` to the pathname exactly when it does not already
end in `.json`, and serializes precisely the parameter entries whose
value is defined, omitting the `undefined` ones. -/
theorem c6_fetch_url (path : String) (params : List (String × Option String))
    (h : Char.ofNat 63 ∉ path.data) :
    (fetchLouvreAPIUrl path params).origin = BASE_URL ∧
    (fetchLouvreAPIUrl path params).pathname
      = (if jsEndsWith path ".json" = true then path else path ++ ".json") ∧
    (∀ k v, (k, v) ∈ (fetchLouvreAPIUrl path params).searchParams ↔
      (k, some v) ∈ params) := by
  refine ⟨rfl, ?_, ?_⟩
  · show louvrePathname path = _
    unfold louvrePathname
    rw [jsIncludes_json_query_false h]
    by_cases he : jsEndsWith path ".json" = true
    · simp [he]
    · simp [he]
  · intro k v
    show (k, v) ∈ serializeParams params ↔ _
    unfold serializeParams
    rw [List.mem_filterMap]
    constructor
    · rintro ⟨⟨k2, v2⟩, hmem, hmap⟩
      cases v2 with
      | none => simp at hmap
      | some w =>
        simp only [Option.map_some'] at hmap
        injection hmap with hmap
        rw [Prod.mk.injEq] at hmap
        rcases hmap with ⟨rfl, rfl⟩
        exact hmem
    · intro hmem
      exact ⟨(k, some v), hmem, rfl⟩

/-- Claim C6 witness: a detail path without the suffix gets `.json`
appended. -/
theorem c6_witness :
    (fetchLouvreAPIUrl "/ark:/53355/cl010066723"
        [("lang", some "fr"), ("draft", none)]).pathname
      = "/ark:/53355/cl010066723.json" := by
  have h := (c6_fetch_url "/ark:/53355/cl010066723"
    [("lang", some "fr"), ("draft", none)] (by decide)).2.1
  rw [h]
  decide

/-- Claim C7.  Every image URL encountered by the HTML page-image
fallback produces an entry whose type is `thumbnail` when the URL
contains `small` or `thumb`, else `full` when it contains `large` or
`full`, else `unknown`. -/
theorem c7_html_type_classification (elems : List ImgElement) (i : Nat)
    (el : ImgElement) (src : String) (h1 : elems[i]? = some el)
    (h2 : truthyOr el.src el.dataSrc = some src) :
    (⟨(i : Int),
      (if jsIncludes src "small" || jsIncludes src "thumb" then "thumbnail"
       else if jsIncludes src "large" || jsIncludes src "full" then "full"
       else "unknown"),
      resolveUrl src, jsOr el.alt ""⟩ : HtmlImageEntry)
      ∈ extractPageImages elems := by
  have h := mem_extractPageImagesAux elems 0 i el src h1 h2
  simpa [extractPageImages, classifyImgType] using h

/-- Claim C7 witness: a `-thumb` URL on the page classifies as a
thumbnail. -/
theorem c7_witness :
    (⟨((0 : Nat) : Int),
      (if jsIncludes "/media/a-thumb.jpg" "small"
          || jsIncludes "/media/a-thumb.jpg" "thumb" then "thumbnail"
       else if jsIncludes "/media/a-thumb.jpg" "large"
          || jsIncludes "/media/a-thumb.jpg" "full" then "full"
       else "unknown"),
      resolveUrl "/media/a-thumb.jpg", jsOr none ""⟩ : HtmlImageEntry)
      ∈ extractPageImages [⟨some "/media/a-thumb.jpg", none, none⟩] :=
  c7_html_type_classification [⟨some "/media/a-thumb.jpg", none, none⟩] 0
    ⟨some "/media/a-thumb.jpg", none, none⟩ "/media/a-thumb.jpg"
    (by decide) (by decide)

/-- Claim C8 (amended).  Result-count parsing takes the first
space-delimited token of the trimmed count text, strips non-digits and
parses the digits; it defaults to 0 only when the token is empty (absent
element or blank text).  When the token is non-empty but contains no
digit the parse is `NaN` (`none`), not 0.  `totalPages` is the ceiling of
`totalResults / 20` (on naturals, `(n + 19) / 20`), and a count element
reading `42 résultats` yields 42 results and 3 pages. -/
theorem c8_count_parsing_amended :
    (∀ text, jsFirstSpaceToken text = "" → totalResultsOf text = some 0) ∧
    (∀ text, jsFirstSpaceToken text ≠ "" →
      (stripNonDigits (jsFirstSpaceToken text)).data = [] →
      totalResultsOf text = none) ∧
    (∀ text n, totalResultsOf text = some n →
      totalPagesOf text = some ((n + 19) / 20)) ∧
    totalResultsOf "42 résultats" = some 42 ∧
    totalPagesOf "42 résultats" = some 3 := by
  refine ⟨?_, ?_, ?_, by decide, by decide⟩
  · intro text h
    simp only [totalResultsOf, h]
    decide
  · intro text h1 h2
    simp only [totalResultsOf, if_neg h1]
    simp [jsParseIntDigits, h2]
  · intro text n h
    simp [totalPagesOf, h]

/-- Claim C8 counterexample.  A count element whose first token has no
digits ("environ quarante") parses to `NaN` (`none`), not to the claimed
default 0. -/
theorem c8_counterexample :
    totalResultsOf "environ quarante" = none ∧
      totalResultsOf "environ quarante" ≠ some 0 := by decide

/-- Claim C8 witness: the pagination formula applied to a parsed count. -/
theorem c8_witness : totalPagesOf "17 items" = some 1 := by
  have h := c8_count_parsing_amended.2.2.1 "17 items" 17 (by decide)
  rw [h]

/-- Claim C9.  When several images share the requested position (possible
across type groups), the position lookup returns the first match in the
record's insertion order. -/
theorem c9_first_match (type? : Option String) (p : Int)
    (l1 l2 : List LouvreImage) (img : LouvreImage)
    (h1 : ∀ x ∈ l1, x.position ≠ p) (h2 : img.position = p) :
    formatImageResponse type? (some p) (l1 ++ img :: l2)
      = ImageResult.singleImage p img := by
  rw [formatImageResponse_pos]
  have hl1 : l1.find? (fun x => x.position == p) = none := by
    rw [List.find?_eq_none]
    intro x hx
    simpa [beq_iff_eq] using h1 x hx
  have hfind : (l1 ++ img :: l2).find? (fun x => x.position == p)
      = some img := by
    rw [List.find?_append, hl1]
    simp [List.find?_cons_of_pos, beq_iff_eq.mpr h2]
  rw [hfind]

/-- Claim C9 witness: two images share position 0 in different groups and
the first one (insertion order) is returned. -/
theorem c9_witness :
    formatImageResponse none (some 0)
        [⟨0, "thumbnail", "a"⟩, ⟨0, "full", "b"⟩]
      = ImageResult.singleImage 0 ⟨0, "thumbnail", "a"⟩ :=
  c9_first_match none 0 [] [⟨0, "full", "b"⟩] ⟨0, "thumbnail", "a"⟩
    (by simp) rfl

/-- Claim C10.  A search invoked without a page argument issues the
request with page 1: the URL equals the one built for an explicit page 1,
with the page parameter serialized as `page=1`. -/
theorem c10_default_page (query : String) :
    searchUrl query none = searchUrl query (some 1) ∧
    searchUrl query none =
      "https://collections.louvre.fr/recherche?page=1&q=" ++
        encodeURIComponent query := by
  constructor
  · simp [searchUrl, jsOrInt]
  · have h1 : ("https://collections.louvre.fr/recherche?page=" ++
        toString (jsOrInt none 1) ++ "&q=")
        = "https://collections.louvre.fr/recherche?page=1&q=" := by decide
    show ("https://collections.louvre.fr/recherche?page=" ++
        toString (jsOrInt none 1) ++ "&q=") ++ encodeURIComponent query = _
    rw [h1]

end LouvreMCP
